import Mathlib

/-!
Shallow embedding of BlockChain.py.

A Block carries index, previous_hash, transactions, timestamp, nonce and a
stored hash; a Blockchain owns a list of blocks and a difficulty.  The
SHA-256 digest of the canonical (sort_keys) JSON serialization of the five
hashed fields is modelled as an abstract function H from those fields to a
string; computable mock digests instantiate H for concrete evaluations.
Timestamps are modelled as natural numbers supplied by the caller (the
ambient clock value that time.time() would return).
-/

/-- The five fields Block.calculate_hash serializes: the JSON object with
keys index, previous_hash, transactions, timestamp and nonce. -/
structure HashInput where
  index : Nat
  previous_hash : String
  transactions : List String
  timestamp : Nat
  nonce : Nat
deriving DecidableEq

/-- A Block of BlockChain.py: the five hashed fields plus the stored hash. -/
structure Block where
  index : Nat
  previous_hash : String
  transactions : List String
  timestamp : Nat
  nonce : Nat
  hash : String
deriving DecidableEq

instance : Inhabited Block := ⟨⟨0, "", [], 0, 0, ""⟩⟩

/-- The fields of a block that calculate_hash feeds to the digest. -/
def hashInput (b : Block) : HashInput :=
  { index := b.index, previous_hash := b.previous_hash,
    transactions := b.transactions, timestamp := b.timestamp, nonce := b.nonce }

/-- Block.calculate_hash: the digest of the five serialized fields. -/
def calculate_hash (H : HashInput → String) (b : Block) : String :=
  H (hashInput b)

/-- Block.__init__: stores the given fields, starts the nonce at 0 and
immediately computes the stored hash from the fields. -/
def Block.init (H : HashInput → String) (index : Nat) (previous_hash : String)
    (transactions : List String) (timestamp : Nat) : Block :=
  { index := index, previous_hash := previous_hash, transactions := transactions,
    timestamp := timestamp, nonce := 0,
    hash := H { index := index, previous_hash := previous_hash,
                transactions := transactions, timestamp := timestamp, nonce := 0 } }

/-- The string of difficulty many zeros that mine_block compares against. -/
def target (d : Nat) : String := String.mk (List.replicate d '0')

/-- The negation of the loop guard of mine_block: the first d characters of
s (Python s[:d]) equal the all-zero target. -/
def hashOk (d : Nat) (s : String) : Bool := s.take d == target d

/-- The digest of a block's fields with the nonce replaced by k. -/
def hashAt (H : HashInput → String) (b : Block) (k : Nat) : String :=
  H { index := b.index, previous_hash := b.previous_hash,
      transactions := b.transactions, timestamp := b.timestamp, nonce := k }

/-- Exit test of the mine_block loop after j iterations: at j = 0 the stored
hash is tested, afterwards the recomputed hash at nonce b.nonce + j. -/
def mineP (H : HashInput → String) (d : Nat) (b : Block) (j : Nat) : Bool :=
  if j = 0 then hashOk d b.hash else hashOk d (hashAt H b (b.nonce + j))

/-- Termination of the mine_block loop: some iteration passes the exit test. -/
def MineTerm (H : HashInput → String) (d : Nat) (b : Block) : Prop :=
  ∃ j : Nat, mineP H d b j = true

/-- Block.mine_block: while the stored hash's first d characters are not all
zero, increment the nonce and recompute the stored hash; return the block's
final state together with the returned hash value. -/
def mine_block (H : HashInput → String) (d : Nat) (b : Block)
    (hm : MineTerm H d b) : Block × String :=
  if Nat.find hm = 0 then (b, b.hash)
  else
    ({ b with nonce := b.nonce + Nat.find hm,
              hash := hashAt H b (b.nonce + Nat.find hm) },
     hashAt H b (b.nonce + Nat.find hm))

/-- A Blockchain of BlockChain.py: the owned block list and the difficulty. -/
structure Blockchain where
  chain : List Block
  difficulty : Nat
deriving DecidableEq

/-- Blockchain.create_genesis_block: Block(0, "0",
["Genesis Block Transaction"], time.time()), with the clock value passed in. -/
def create_genesis_block (H : HashInput → String) (ts : Nat) : Block :=
  Block.init H 0 "0" ["Genesis Block Transaction"] ts

/-- Blockchain.__init__: the chain starts as the single genesis block and the
difficulty is the fixed value 4; the constructor takes no difficulty
argument. -/
def Blockchain.init (H : HashInput → String) (ts : Nat) : Blockchain :=
  { chain := [create_genesis_block H ts], difficulty := 4 }

/-- Blockchain.get_latest_block: self.chain[-1]; none models the IndexError
a Python negative index raises on an empty list. -/
def get_latest_block (c : Blockchain) : Option Block := c.chain.getLast?

/-- Blockchain.add_block: builds Block(len(chain), latest.hash, transactions)
at the current time ts, mines it at the chain's difficulty, appends the mined
block and returns it. -/
def add_block (H : HashInput → String) (c : Blockchain)
    (transactions : List String) (ts : Nat) (tip : Block)
    (_htip : get_latest_block c = some tip)
    (hm : MineTerm H c.difficulty
      (Block.init H c.chain.length tip.hash transactions ts)) :
    Blockchain × Block :=
  ({ c with chain := c.chain ++
      [(mine_block H c.difficulty
          (Block.init H c.chain.length tip.hash transactions ts) hm).1] },
   (mine_block H c.difficulty
      (Block.init H c.chain.length tip.hash transactions ts) hm).1)

/-- Blockchain.is_chain_valid: for i in range(1, len(chain)), require block
i's previous_hash to equal block i-1's stored hash and block i's stored hash
to equal its freshly recomputed hash; true iff no check fails. -/
def is_chain_valid (H : HashInput → String) (c : Blockchain) : Bool :=
  (List.range' 1 (c.chain.length - 1)).all fun i =>
    ((c.chain.getD i default).previous_hash == (c.chain.getD (i - 1) default).hash) &&
    ((c.chain.getD i default).hash == calculate_hash H (c.chain.getD i default))

/-- The two checks is_chain_valid performs on one adjacent pair. -/
def checkPair (H : HashInput → String) (previous_block current_block : Block) : Bool :=
  (current_block.previous_hash == previous_block.hash) &&
  (current_block.hash == calculate_hash H current_block)

/-- Chain validity invariant as in the spec's data model: every adjacent pair
is linked and every block's stored hash (genesis included) equals its freshly
recomputed hash. -/
def chainInvariant (H : HashInput → String) (c : Blockchain) : Bool :=
  ((List.range (c.chain.length - 1)).all fun i =>
    ((c.chain.getD (i + 1) default).previous_hash == (c.chain.getD i default).hash)) &&
  (c.chain.all fun b => b.hash == calculate_hash H b)

/-- Tampering as in the demo harness: overwrite block i's transactions in
place, leaving its stored hash untouched. -/
def tamperPayload (c : Blockchain) (i : Nat) (p : List String) : Blockchain :=
  let b := { c.chain.getD i default with transactions := p }
  { c with chain := c.chain.set i b }

/-- Second tampering step of the demo harness: recompute block i's hash from
its current fields and store it. -/
def rehashBlock (H : HashInput → String) (c : Blockchain) (i : Nat) : Blockchain :=
  let b := { c.chain.getD i default with
             hash := calculate_hash H (c.chain.getD i default) }
  { c with chain := c.chain.set i b }

/-- Chains reachable from the constructor by any sequence of add_block calls. -/
inductive Reachable (H : HashInput → String) : Blockchain → Prop
  | base (ts : Nat) : Reachable H (Blockchain.init H ts)
  | step (c : Blockchain) (transactions : List String) (ts : Nat) (tip : Block)
      (htip : get_latest_block c = some tip)
      (hm : MineTerm H c.difficulty
        (Block.init H c.chain.length tip.hash transactions ts)) :
      Reachable H c → Reachable H (add_block H c transactions ts tip htip hm).1

/-- Modelled from the spec: the interface section's
new_chain(difficulty: uint) -> Chain, a constructor taking a difficulty
argument; BlockChain.py's constructor takes none, so this definition follows
the spec's words for comparison with Blockchain.init. -/
def new_chain (H : HashInput → String) (difficulty : Nat) (ts : Nat) : Blockchain :=
  { chain := [create_genesis_block H ts], difficulty := difficulty }

/-- Canonical rendering of a transaction list for the mock digests. -/
def serializeTxs (l : List String) : String := String.intercalate "," l

/-- Canonical rendering of the hashed fields for the mock digests. -/
def serializeInput (inp : HashInput) : String :=
  toString inp.index ++ "|" ++ inp.previous_hash ++ "|" ++
    serializeTxs inp.transactions ++ "|" ++ toString inp.timestamp ++ "|" ++
    toString inp.nonce

/-- Mock digest whose outputs never start with a zero character. -/
def Hmock (inp : HashInput) : String := "h" ++ serializeInput inp

/-- Mock digest whose outputs always start with four zero characters. -/
def Hzero (inp : HashInput) : String := "0000" ++ serializeInput inp

/-- Concrete genesis block under the Hmock digest. -/
def gM : Block := create_genesis_block Hmock 0

/-- Concrete block 1 under the Hmock digest, correctly linked to gM. -/
def b1M : Block := Block.init Hmock 1 gM.hash ["A"] 1

/-- Concrete block 2 under the Hmock digest, correctly linked to b1M. -/
def b2M : Block := Block.init Hmock 2 b1M.hash ["B"] 2

/-- Concrete valid two-block chain under the Hmock digest. -/
def chain2M : Blockchain := { chain := [gM, b1M], difficulty := 4 }

/-- Concrete valid three-block chain under the Hmock digest. -/
def chain3M : Blockchain := { chain := [gM, b1M, b2M], difficulty := 4 }

/-- Concrete block whose previous_hash does not match the genesis hash. -/
def badB1 : Block := Block.init Hmock 1 "deadbeef" ["A"] 1

/-- Concrete chain with broken linkage at block 1 and difficulty 0. -/
def badChain : Blockchain := { chain := [gM, badB1], difficulty := 0 }

/-- The latest block of badChain really is badB1. -/
def htipBad : get_latest_block badChain = some badB1 := by decide

/-- Mining terminates at once on badChain's difficulty 0. -/
def badTerm : MineTerm Hmock badChain.difficulty
    (Block.init Hmock badChain.chain.length badB1.hash ["x"] 5) :=
  ⟨0, by decide⟩

/-- Concrete genesis block under the Hzero digest. -/
def gZ : Block := create_genesis_block Hzero 0

/-- The latest block of the freshly constructed Hzero chain is gZ. -/
def htipZ : get_latest_block (Blockchain.init Hzero 0) = some gZ := by decide

/-- Mining the candidate successor block of gZ terminates at once under
Hzero, whose digests always meet difficulty 4. -/
def termZ : MineTerm Hzero (Blockchain.init Hzero 0).difficulty
    (Block.init Hzero (Blockchain.init Hzero 0).chain.length gZ.hash
      ["Alice sends 1 BTC to Bob"] 1) :=
  ⟨0, by decide⟩

/-- Concrete freshly constructed block under the Hzero digest. -/
def wBlock : Block := Block.init Hzero 5 "prev" ["tx"] 9

/-- Mining wBlock at difficulty 4 terminates at once under Hzero. -/
def wTerm : MineTerm Hzero 4 wBlock := ⟨0, by decide⟩

/-- Concrete block whose stored hash does not meet difficulty 4. -/
def sBlock : Block :=
  { index := 3, previous_hash := "p", transactions := ["t"], timestamp := 7,
    nonce := 0, hash := "xyz" }

/-- Mining sBlock at difficulty 4 terminates after one increment under Hzero. -/
def sTerm : MineTerm Hzero 4 sBlock := ⟨1, by decide⟩

/-- Concrete block whose stored hash "0" already starts with one zero but
differs from its recomputed digest. -/
def unsealedBlock : Block :=
  { index := 0, previous_hash := "p", transactions := [], timestamp := 0,
    nonce := 0, hash := "0" }

/-- Mining unsealedBlock at difficulty 1 terminates at once: the stored hash
already starts with a zero. -/
def unsealedTerm : MineTerm Hmock 1 unsealedBlock := ⟨0, by decide⟩

/-- Concrete block for the determinism witness. -/
def detA : Block :=
  { index := 1, previous_hash := "p", transactions := ["t"], timestamp := 2,
    nonce := 3, hash := "AAA" }

/-- Concrete block agreeing with detA on all hashed fields but not on the
stored hash. -/
def detB : Block :=
  { index := 1, previous_hash := "p", transactions := ["t"], timestamp := 2,
    nonce := 3, hash := "BBB" }

/-! Helper lemmas about the embedded operations. -/

theorem hashOk_iff (d : Nat) (s : String) : hashOk d s = true ↔ s.take d = target d := by
  simp [hashOk]

theorem hashOk_zero (s : String) : hashOk 0 s = true := by
  rw [hashOk_iff]
  rw [String.take_eq]
  rfl

theorem Block.init_sealed (H : HashInput → String) (i : Nat) (p : String)
    (t : List String) (ts : Nat) :
    (Block.init H i p t ts).hash = calculate_hash H (Block.init H i p t ts) := rfl

theorem calculate_hash_eq_hashAt (H : HashInput → String) (b : Block) :
    calculate_hash H b = hashAt H b b.nonce := rfl

theorem mineP_zero (H : HashInput → String) (d : Nat) (b : Block) :
    mineP H d b 0 = hashOk d b.hash := rfl

theorem mineP_pos (H : HashInput → String) (d : Nat) (b : Block) (j : Nat)
    (hj : j ≠ 0) : mineP H d b j = hashOk d (hashAt H b (b.nonce + j)) := by
  simp [mineP, hj]

theorem mine_block_of_hashOk (H : HashInput → String) (d : Nat) (b : Block)
    (hm : MineTerm H d b) (h0 : hashOk d b.hash = true) :
    mine_block H d b hm = (b, b.hash) := by
  have hfind : Nat.find hm = 0 := (Nat.find_eq_zero hm).mpr h0
  simp [mine_block, hfind]

theorem mine_find_ne_zero (H : HashInput → String) (d : Nat) (b : Block)
    (hm : MineTerm H d b) (h0 : hashOk d b.hash = false) : Nat.find hm ≠ 0 := by
  intro h
  have := (Nat.find_eq_zero hm).mp h
  rw [mineP_zero, h0] at this
  exact Bool.false_ne_true this

theorem mine_block_of_not_hashOk (H : HashInput → String) (d : Nat) (b : Block)
    (hm : MineTerm H d b) (h0 : hashOk d b.hash = false) :
    mine_block H d b hm =
      ({ b with nonce := b.nonce + Nat.find hm,
                hash := hashAt H b (b.nonce + Nat.find hm) },
       hashAt H b (b.nonce + Nat.find hm)) := by
  simp [mine_block, mine_find_ne_zero H d b hm h0]

theorem mine_block_frame_core (H : HashInput → String) (d : Nat) (b : Block)
    (hm : MineTerm H d b) :
    (mine_block H d b hm).1.index = b.index ∧
    (mine_block H d b hm).1.previous_hash = b.previous_hash ∧
    (mine_block H d b hm).1.transactions = b.transactions ∧
    (mine_block H d b hm).1.timestamp = b.timestamp := by
  unfold mine_block
  by_cases h : Nat.find hm = 0 <;> simp [h]

theorem mine_block_snd (H : HashInput → String) (d : Nat) (b : Block)
    (hm : MineTerm H d b) : (mine_block H d b hm).2 = (mine_block H d b hm).1.hash := by
  unfold mine_block
  by_cases h : Nat.find hm = 0 <;> simp [h]

theorem mine_block_hashOk (H : HashInput → String) (d : Nat) (b : Block)
    (hm : MineTerm H d b) : hashOk d (mine_block H d b hm).1.hash = true := by
  have hspec := Nat.find_spec hm
  by_cases h : Nat.find hm = 0
  · rw [h, mineP_zero] at hspec
    unfold mine_block
    simp [h, hspec]
  · rw [mineP_pos H d b _ h] at hspec
    unfold mine_block
    simp [h, hspec]

theorem mine_block_sealed (H : HashInput → String) (d : Nat) (b : Block)
    (hm : MineTerm H d b) (hs : b.hash = calculate_hash H b) :
    (mine_block H d b hm).1.hash = calculate_hash H (mine_block H d b hm).1 := by
  unfold mine_block
  by_cases h : Nat.find hm = 0 <;>
    simp [h, hs, calculate_hash, hashInput, hashAt]

theorem getD_eq_get (l : List Block) (i : Nat) (h : i < l.length) :
    l.getD i default = l.get ⟨i, h⟩ := by
  simp [List.getElem?_eq_getElem h]

theorem getD_mem (l : List Block) (i : Nat) (h : i < l.length) :
    l.getD i default ∈ l := by
  rw [getD_eq_get l i h]
  exact l.get_mem i h

theorem getD_append_left (l l2 : List Block) (i : Nat) (h : i < l.length) :
    (l ++ l2).getD i default = l.getD i default := by
  simp [List.getElem?_append_left h]

theorem getD_append_len (l : List Block) (b : Block) :
    (l ++ [b]).getD l.length default = b := by
  simp [List.getElem?_concat_length]

theorem getD_set_self (l : List Block) (i : Nat) (h : i < l.length) (a : Block) :
    (l.set i a).getD i default = a := by
  simp [List.getElem?_set_self h]

theorem getD_set_ne (l : List Block) (i j : Nat) (hij : i ≠ j) (a : Block) :
    (l.set i a).getD j default = l.getD j default := by
  simp [List.getElem?_set_ne hij]

theorem getLast?_getD (l : List Block) (b : Block) (h : l.getLast? = some b) :
    l.getD (l.length - 1) default = b := by
  rw [List.getLast?_eq_getElem?] at h
  simp [h]

theorem is_chain_valid_iff (H : HashInput → String) (c : Blockchain) :
    is_chain_valid H c = true ↔
      ∀ i : Nat, i + 1 < c.chain.length →
        checkPair H (c.chain.getD i default) (c.chain.getD (i + 1) default) = true := by
  unfold is_chain_valid checkPair
  rw [List.all_eq_true]
  constructor
  · intro h i hi
    have hmem : i + 1 ∈ List.range' 1 (c.chain.length - 1) := by
      rw [List.mem_range'_1]
      omega
    have := h (i + 1) hmem
    simpa using this
  · intro h x hx
    rw [List.mem_range'_1] at hx
    obtain ⟨hx1, hx2⟩ := hx
    have := h (x - 1) (by omega)
    have hxeq : x - 1 + 1 = x := by omega
    rw [hxeq] at this
    simpa using this

theorem chainInvariant_iff (H : HashInput → String) (c : Blockchain) :
    chainInvariant H c = true ↔
      (∀ i : Nat, i + 1 < c.chain.length →
        (c.chain.getD (i + 1) default).previous_hash = (c.chain.getD i default).hash) ∧
      (∀ b ∈ c.chain, b.hash = calculate_hash H b) := by
  unfold chainInvariant
  rw [Bool.and_eq_true, List.all_eq_true, List.all_eq_true]
  constructor
  · intro ⟨h1, h2⟩
    constructor
    · intro i hi
      have := h1 i (by rw [List.mem_range]; omega)
      simpa using this
    · intro b hb
      simpa using h2 b hb
  · intro ⟨h1, h2⟩
    constructor
    · intro i hi
      rw [List.mem_range] at hi
      simpa using h1 i (by omega)
    · intro b hb
      simpa using h2 b hb

theorem valid_of_invariant (H : HashInput → String) (c : Blockchain)
    (h : chainInvariant H c = true) : is_chain_valid H c = true := by
  rw [chainInvariant_iff] at h
  obtain ⟨hl, hs⟩ := h
  rw [is_chain_valid_iff]
  intro i hi
  unfold checkPair
  rw [Bool.and_eq_true]
  constructor
  · rw [beq_iff_eq]
    exact hl i hi
  · rw [beq_iff_eq]
    exact hs _ (getD_mem c.chain (i + 1) hi)

theorem is_chain_valid_append (H : HashInput → String) (c : Blockchain)
    (nb tip : Block) (hv : is_chain_valid H c = true)
    (htip : c.chain.getLast? = some tip)
    (hlink : nb.previous_hash = tip.hash)
    (hseal : nb.hash = calculate_hash H nb) :
    is_chain_valid H { c with chain := c.chain ++ [nb] } = true := by
  have hne : c.chain ≠ [] := by
    intro h
    rw [h] at htip
    simp [List.getLast?] at htip
  have hlen : 0 < c.chain.length := List.length_pos.mpr hne
  rw [is_chain_valid_iff] at hv
  rw [is_chain_valid_iff]
  intro i hi
  simp only [List.length_append, List.length_cons, List.length_nil] at hi
  by_cases hcase : i + 1 < c.chain.length
  · rw [show ({ c with chain := c.chain ++ [nb] } : Blockchain).chain = c.chain ++ [nb] from rfl,
      getD_append_left c.chain [nb] i (by omega),
      getD_append_left c.chain [nb] (i + 1) hcase]
    exact hv i hcase
  · have hieq : i + 1 = c.chain.length := by omega
    rw [show ({ c with chain := c.chain ++ [nb] } : Blockchain).chain = c.chain ++ [nb] from rfl,
      getD_append_left c.chain [nb] i (by omega), hieq, getD_append_len]
    have htipd : c.chain.getD i default = tip := by
      have := getLast?_getD c.chain tip htip
      rw [show c.chain.length - 1 = i by omega] at this
      exact this
    unfold checkPair
    rw [Bool.and_eq_true, beq_iff_eq, beq_iff_eq, htipd]
    exact ⟨hlink, hseal⟩

theorem chainInvariant_append (H : HashInput → String) (c : Blockchain)
    (nb tip : Block) (hinv : chainInvariant H c = true)
    (htip : c.chain.getLast? = some tip)
    (hlink : nb.previous_hash = tip.hash)
    (hseal : nb.hash = calculate_hash H nb) :
    chainInvariant H { c with chain := c.chain ++ [nb] } = true := by
  have hne : c.chain ≠ [] := by
    intro h
    rw [h] at htip
    simp [List.getLast?] at htip
  have hlen : 0 < c.chain.length := List.length_pos.mpr hne
  rw [chainInvariant_iff] at hinv
  obtain ⟨hl, hs⟩ := hinv
  rw [chainInvariant_iff]
  constructor
  · intro i hi
    simp only [List.length_append, List.length_cons, List.length_nil] at hi
    by_cases hcase : i + 1 < c.chain.length
    · rw [show ({ c with chain := c.chain ++ [nb] } : Blockchain).chain = c.chain ++ [nb] from rfl,
        getD_append_left c.chain [nb] i (by omega),
        getD_append_left c.chain [nb] (i + 1) hcase]
      exact hl i hcase
    · have hieq : i + 1 = c.chain.length := by omega
      rw [show ({ c with chain := c.chain ++ [nb] } : Blockchain).chain = c.chain ++ [nb] from rfl,
        getD_append_left c.chain [nb] i (by omega), hieq, getD_append_len]
      have htipd : c.chain.getD i default = tip := by
        have := getLast?_getD c.chain tip htip
        rw [show c.chain.length - 1 = i by omega] at this
        exact this
      rw [htipd]
      exact hlink
  · intro b hb
    rw [show ({ c with chain := c.chain ++ [nb] } : Blockchain).chain = c.chain ++ [nb] from rfl] at hb
    rcases List.mem_append.mp hb with h | h
    · exact hs b h
    · rw [List.mem_singleton.mp h]
      exact hseal

theorem add_block_chain (H : HashInput → String) (c : Blockchain)
    (transactions : List String) (ts : Nat) (tip : Block)
    (htip : get_latest_block c = some tip)
    (hm : MineTerm H c.difficulty
      (Block.init H c.chain.length tip.hash transactions ts)) :
    (add_block H c transactions ts tip htip hm).1.chain =
      c.chain ++ [(add_block H c transactions ts tip htip hm).2] := rfl

theorem add_block_snd (H : HashInput → String) (c : Blockchain)
    (transactions : List String) (ts : Nat) (tip : Block)
    (htip : get_latest_block c = some tip)
    (hm : MineTerm H c.difficulty
      (Block.init H c.chain.length tip.hash transactions ts)) :
    (add_block H c transactions ts tip htip hm).2 =
      (mine_block H c.difficulty
        (Block.init H c.chain.length tip.hash transactions ts) hm).1 := rfl

theorem add_block_block_fields (H : HashInput → String) (c : Blockchain)
    (transactions : List String) (ts : Nat) (tip : Block)
    (htip : get_latest_block c = some tip)
    (hm : MineTerm H c.difficulty
      (Block.init H c.chain.length tip.hash transactions ts)) :
    (add_block H c transactions ts tip htip hm).2.index = c.chain.length ∧
    (add_block H c transactions ts tip htip hm).2.previous_hash = tip.hash ∧
    (add_block H c transactions ts tip htip hm).2.transactions = transactions ∧
    (add_block H c transactions ts tip htip hm).2.timestamp = ts := by
  rw [add_block_snd]
  have := mine_block_frame_core H c.difficulty
    (Block.init H c.chain.length tip.hash transactions ts) hm
  obtain ⟨h1, h2, h3, h4⟩ := this
  exact ⟨h1, h2, h3, h4⟩

theorem add_block_block_sealed (H : HashInput → String) (c : Blockchain)
    (transactions : List String) (ts : Nat) (tip : Block)
    (htip : get_latest_block c = some tip)
    (hm : MineTerm H c.difficulty
      (Block.init H c.chain.length tip.hash transactions ts)) :
    (add_block H c transactions ts tip htip hm).2.hash =
      calculate_hash H (add_block H c transactions ts tip htip hm).2 := by
  rw [add_block_snd]
  exact mine_block_sealed H c.difficulty
    (Block.init H c.chain.length tip.hash transactions ts) hm rfl

theorem chainInvariant_base (H : HashInput → String) (ts : Nat) :
    chainInvariant H (Blockchain.init H ts) = true := by
  rw [chainInvariant_iff]
  constructor
  · intro i hi
    simp [Blockchain.init] at hi
  · intro b hb
    simp only [Blockchain.init, List.mem_singleton] at hb
    rw [hb]
    rfl

theorem reachable_invariant_aux (H : HashInput → String) (c : Blockchain)
    (hre : Reachable H c) : chainInvariant H c = true := by
  induction hre with
  | base ts => exact chainInvariant_base H ts
  | step c transactions ts tip htip hm hre ih =>
    have hfields := add_block_block_fields H c transactions ts tip htip hm
    have hseal := add_block_block_sealed H c transactions ts tip htip hm
    have hch : (add_block H c transactions ts tip htip hm).1 =
        { c with chain := c.chain ++ [(add_block H c transactions ts tip htip hm).2] } := rfl
    rw [hch]
    exact chainInvariant_append H c _ tip ih htip hfields.2.1 hseal

theorem reachable_ne_nil (H : HashInput → String) (c : Blockchain)
    (hre : Reachable H c) : c.chain ≠ [] := by
  induction hre with
  | base ts => simp [Blockchain.init]
  | step c transactions ts tip htip hm hre ih =>
    rw [add_block_chain]
    exact fun h => ih (List.append_eq_nil.mp h).1

/-! Claim theorems. -/

/-- C8: calculate_hash is deterministic and side-effect free: it is a pure
function of the five hashed fields, so any two blocks agreeing on index,
previous_hash, transactions (payload), timestamp and nonce get the same
digest, independent of any other state such as the stored hash field; being
a pure function of the embedding, it mutates nothing. -/
theorem calculate_hash_deterministic (H : HashInput → String) (b b' : Block)
    (h1 : b.index = b'.index) (h2 : b.previous_hash = b'.previous_hash)
    (h3 : b.transactions = b'.transactions) (h4 : b.timestamp = b'.timestamp)
    (h5 : b.nonce = b'.nonce) :
    calculate_hash H b = calculate_hash H b' := by
  unfold calculate_hash hashInput
  rw [h1, h2, h3, h4, h5]

/-- Witness for C8: two distinct concrete blocks agreeing on the five hashed
fields (they differ in the stored hash) get the same digest. -/
theorem calculate_hash_deterministic_witness :
    detA ≠ detB ∧ calculate_hash Hmock detA = calculate_hash Hmock detB :=
  ⟨by decide, calculate_hash_deterministic Hmock detA detB rfl rfl rfl rfl rfl⟩

/-- C7: mine_block mutates only the nonce and hash fields: the block's
index, previous_hash, transactions and timestamp after mine_block returns
equal their values before the call. -/
theorem mine_block_frame (H : HashInput → String) (d : Nat) (b : Block)
    (hm : MineTerm H d b) :
    (mine_block H d b hm).1.index = b.index ∧
    (mine_block H d b hm).1.previous_hash = b.previous_hash ∧
    (mine_block H d b hm).1.transactions = b.transactions ∧
    (mine_block H d b hm).1.timestamp = b.timestamp :=
  mine_block_frame_core H d b hm

/-- Witness for C7 at a concrete block and difficulty 4 under Hzero. -/
theorem mine_block_frame_witness :
    (mine_block Hzero 4 wBlock wTerm).1.index = wBlock.index ∧
    (mine_block Hzero 4 wBlock wTerm).1.previous_hash = wBlock.previous_hash ∧
    (mine_block Hzero 4 wBlock wTerm).1.transactions = wBlock.transactions ∧
    (mine_block Hzero 4 wBlock wTerm).1.timestamp = wBlock.timestamp :=
  mine_block_frame Hzero 4 wBlock wTerm

/-- C10: mine_block tests the stored hash before incrementing: if it already
starts with d zeros (in particular whenever d = 0) the block is returned
unchanged with the stored hash; otherwise the final nonce is the smallest
nonce strictly greater than the starting nonce whose recomputed digest
starts with d zeros, and the final stored hash is that digest. -/
theorem mine_block_search (H : HashInput → String) (d : Nat) (b : Block)
    (hm : MineTerm H d b) :
    (hashOk d b.hash = true → mine_block H d b hm = (b, b.hash)) ∧
    (d = 0 → mine_block H d b hm = (b, b.hash)) ∧
    (hashOk d b.hash = false →
      b.nonce < (mine_block H d b hm).1.nonce ∧
      (mine_block H d b hm).1.hash = hashAt H b (mine_block H d b hm).1.nonce ∧
      hashOk d (hashAt H b (mine_block H d b hm).1.nonce) = true ∧
      ∀ m : Nat, b.nonce < m → m < (mine_block H d b hm).1.nonce →
        hashOk d (hashAt H b m) = false) := by
  refine ⟨fun h0 => mine_block_of_hashOk H d b hm h0,
    fun hd => ?_, fun h0 => ?_⟩
  · subst hd
    exact mine_block_of_hashOk H 0 b hm (hashOk_zero b.hash)
  · have hne := mine_find_ne_zero H d b hm h0
    have heq := mine_block_of_not_hashOk H d b hm h0
    have hspec := Nat.find_spec hm
    rw [mineP_pos H d b (Nat.find hm) hne] at hspec
    rw [heq]
    refine ⟨Nat.lt_add_of_pos_right (Nat.pos_of_ne_zero hne), rfl, hspec, ?_⟩
    intro m hm1 hm2
    simp only at hm2
    have hj1 : m - b.nonce ≠ 0 := by omega
    have hj2 : m - b.nonce < Nat.find hm := by omega
    have hmin := Nat.find_min hm hj2
    rw [mineP_pos H d b (m - b.nonce) hj1] at hmin
    rw [show b.nonce + (m - b.nonce) = m by omega] at hmin
    exact Bool.eq_false_iff.mpr hmin

/-- Witness for C10 at a concrete block whose stored hash "xyz" misses
difficulty 4, so the search branch fires and stops at nonce 1 under Hzero. -/
theorem mine_block_search_witness :
    (hashOk 4 sBlock.hash = true → mine_block Hzero 4 sBlock sTerm = (sBlock, sBlock.hash)) ∧
    (4 = 0 → mine_block Hzero 4 sBlock sTerm = (sBlock, sBlock.hash)) ∧
    (hashOk 4 sBlock.hash = false →
      sBlock.nonce < (mine_block Hzero 4 sBlock sTerm).1.nonce ∧
      (mine_block Hzero 4 sBlock sTerm).1.hash =
        hashAt Hzero sBlock (mine_block Hzero 4 sBlock sTerm).1.nonce ∧
      hashOk 4 (hashAt Hzero sBlock (mine_block Hzero 4 sBlock sTerm).1.nonce) = true ∧
      ∀ m : Nat, sBlock.nonce < m → m < (mine_block Hzero 4 sBlock sTerm).1.nonce →
        hashOk 4 (hashAt Hzero sBlock m) = false) :=
  mine_block_search Hzero 4 sBlock sTerm

/-- C2 (amended): when mine_block returns, the returned string is the
block's stored hash and its first d characters are all zero; the stored
hash moreover equals the digest recomputed from the block's final fields
provided the stored hash equalled the recomputed digest on entry, as it
does for every freshly constructed block. -/
theorem mine_block_postcondition (H : HashInput → String) (d : Nat) (b : Block)
    (hm : MineTerm H d b) :
    (mine_block H d b hm).2 = (mine_block H d b hm).1.hash ∧
    ((mine_block H d b hm).1.hash).take d = target d ∧
    (b.hash = calculate_hash H b →
      (mine_block H d b hm).1.hash = calculate_hash H (mine_block H d b hm).1) := by
  refine ⟨mine_block_snd H d b hm, ?_, fun hs => mine_block_sealed H d b hm hs⟩
  exact (hashOk_iff d _).mp (mine_block_hashOk H d b hm)

/-- Witness for C2 at a concrete freshly constructed block under Hzero. -/
theorem mine_block_postcondition_witness :
    (mine_block Hzero 4 wBlock wTerm).2 = (mine_block Hzero 4 wBlock wTerm).1.hash ∧
    ((mine_block Hzero 4 wBlock wTerm).1.hash).take 4 = target 4 ∧
    (wBlock.hash = calculate_hash Hzero wBlock →
      (mine_block Hzero 4 wBlock wTerm).1.hash =
        calculate_hash Hzero (mine_block Hzero 4 wBlock wTerm).1) :=
  mine_block_postcondition Hzero 4 wBlock wTerm

/-- Counterexample for C2 as stated: on a block whose stored hash "0" was
not recomputed from its fields but already starts with one zero, mine_block
at difficulty 1 returns immediately, and the stored hash differs from the
recomputed digest, refuting the third conjunct of the claim. -/
theorem mine_block_postcondition_cex :
    (mine_block Hmock 1 unsealedBlock unsealedTerm).2 =
      (mine_block Hmock 1 unsealedBlock unsealedTerm).1.hash ∧
    ((mine_block Hmock 1 unsealedBlock unsealedTerm).1.hash).take 1 = target 1 ∧
    (mine_block Hmock 1 unsealedBlock unsealedTerm).1.hash ≠
      calculate_hash Hmock (mine_block Hmock 1 unsealedBlock unsealedTerm).1 := by
  rw [mine_block_of_hashOk Hmock 1 unsealedBlock unsealedTerm (by decide)]
  exact ⟨rfl, by decide, by decide⟩

/-- C1 (amended): after add_block on a nonempty chain on which mining
terminates, the chain has one more block; the new block's previous_hash is
the hash the prior tip had before the call, its index is the old length and
it is the new last element; is_chain_valid returns true afterwards provided
it was true before the call — on an already-invalid chain it stays false,
as the counterexample shows. -/
theorem add_block_growth (H : HashInput → String) (c : Blockchain)
    (transactions : List String) (ts : Nat) (tip : Block)
    (htip : get_latest_block c = some tip)
    (hm : MineTerm H c.difficulty
      (Block.init H c.chain.length tip.hash transactions ts)) :
    (add_block H c transactions ts tip htip hm).1.chain.length = c.chain.length + 1 ∧
    (add_block H c transactions ts tip htip hm).2.previous_hash = tip.hash ∧
    (add_block H c transactions ts tip htip hm).2.index = c.chain.length ∧
    (add_block H c transactions ts tip htip hm).1.chain.getLast? =
      some (add_block H c transactions ts tip htip hm).2 ∧
    (is_chain_valid H c = true →
      is_chain_valid H (add_block H c transactions ts tip htip hm).1 = true) := by
  have hfields := add_block_block_fields H c transactions ts tip htip hm
  have hseal := add_block_block_sealed H c transactions ts tip htip hm
  refine ⟨?_, hfields.2.1, hfields.1, ?_, ?_⟩
  · rw [add_block_chain]
    simp
  · rw [add_block_chain]
    exact List.getLast?_concat _
  · intro hvalid
    have hch : (add_block H c transactions ts tip htip hm).1 =
        { c with chain := c.chain ++ [(add_block H c transactions ts tip htip hm).2] } := rfl
    rw [hch]
    exact is_chain_valid_append H c _ tip hvalid htip hfields.2.1 hseal

/-- Witness for C1 on the freshly constructed Hzero chain. -/
theorem add_block_growth_witness :
    (add_block Hzero (Blockchain.init Hzero 0) ["Alice sends 1 BTC to Bob"] 1 gZ
        htipZ termZ).1.chain.length = (Blockchain.init Hzero 0).chain.length + 1 ∧
    (add_block Hzero (Blockchain.init Hzero 0) ["Alice sends 1 BTC to Bob"] 1 gZ
        htipZ termZ).2.previous_hash = gZ.hash ∧
    (add_block Hzero (Blockchain.init Hzero 0) ["Alice sends 1 BTC to Bob"] 1 gZ
        htipZ termZ).2.index = (Blockchain.init Hzero 0).chain.length ∧
    (add_block Hzero (Blockchain.init Hzero 0) ["Alice sends 1 BTC to Bob"] 1 gZ
        htipZ termZ).1.chain.getLast? =
      some (add_block Hzero (Blockchain.init Hzero 0) ["Alice sends 1 BTC to Bob"] 1 gZ
        htipZ termZ).2 ∧
    (is_chain_valid Hzero (Blockchain.init Hzero 0) = true →
      is_chain_valid Hzero (add_block Hzero (Blockchain.init Hzero 0)
        ["Alice sends 1 BTC to Bob"] 1 gZ htipZ termZ).1 = true) :=
  add_block_growth Hzero (Blockchain.init Hzero 0)
    ["Alice sends 1 BTC to Bob"] 1 gZ htipZ termZ

/-- Counterexample for C1 as stated: on a chain whose history is already
broken (block 1's previous_hash does not match the genesis hash), add_block
returns but is_chain_valid is false afterwards, refuting the claim's last
conjunct for arbitrary chains. -/
theorem add_block_growth_cex :
    is_chain_valid Hmock badChain = false ∧
    is_chain_valid Hmock (add_block Hmock badChain ["x"] 5 badB1 htipBad badTerm).1 = false := by
  constructor
  · decide
  · have h0 : hashOk badChain.difficulty
        (Block.init Hmock badChain.chain.length badB1.hash ["x"] 5).hash = true :=
      hashOk_zero _
    have hmine := mine_block_of_hashOk Hmock badChain.difficulty
      (Block.init Hmock badChain.chain.length badB1.hash ["x"] 5) badTerm h0
    have hch : (add_block Hmock badChain ["x"] 5 badB1 htipBad badTerm).1 =
        { badChain with chain := badChain.chain ++
            [(mine_block Hmock badChain.difficulty
                (Block.init Hmock badChain.chain.length badB1.hash ["x"] 5) badTerm).1] } := rfl
    rw [hch, hmine]
    decide

/-- C4: every chain reachable from the constructor by add_block calls
satisfies the chain validity invariant (every adjacent pair is linked and
every block's stored hash, genesis included, equals its freshly recomputed
digest), and in particular is_chain_valid returns true on it; a freshly
constructed genesis-only chain is the base case. -/
theorem reachable_chain_valid (H : HashInput → String) (c : Blockchain)
    (hre : Reachable H c) :
    chainInvariant H c = true ∧ is_chain_valid H c = true :=
  ⟨reachable_invariant_aux H c hre,
   valid_of_invariant H c (reachable_invariant_aux H c hre)⟩

/-- Witness for C4 at the freshly constructed genesis-only Hmock chain. -/
theorem reachable_chain_valid_witness :
    chainInvariant Hmock (Blockchain.init Hmock 0) = true ∧
    is_chain_valid Hmock (Blockchain.init Hmock 0) = true :=
  reachable_chain_valid Hmock (Blockchain.init Hmock 0) (Reachable.base 0)

/-- C9: every reachable chain is nonempty, so get_latest_block always
succeeds and returns the last element of the block list; the empty-chain
error branch (the none result) is unreachable. -/
theorem get_latest_block_total (H : HashInput → String) (c : Blockchain)
    (hre : Reachable H c) :
    c.chain ≠ [] ∧ get_latest_block c = some (c.chain.getLastD default) := by
  refine ⟨reachable_ne_nil H c hre, ?_⟩
  unfold get_latest_block
  rw [List.getLastD_eq_getLast?]
  cases h : c.chain.getLast? with
  | none =>
    exact absurd (List.getLast?_eq_none_iff.mp h) (reachable_ne_nil H c hre)
  | some b => rfl

/-- Witness for C9 at the freshly constructed Hzero chain. -/
theorem get_latest_block_total_witness :
    (Blockchain.init Hzero 3).chain ≠ [] ∧
    get_latest_block (Blockchain.init Hzero 3) =
      some ((Blockchain.init Hzero 3).chain.getLastD default) :=
  get_latest_block_total Hzero (Blockchain.init Hzero 3) (Reachable.base 3)

/-- C5: is_chain_valid never re-checks the proof-of-work target: its result
is the same under any two difficulty values, and on any block list whose
adjacent pairs are linked and whose blocks carry their recomputed digests it
returns true whatever the difficulty, even when no stored hash starts with
difficulty many zeros (as the witness shows). -/
theorem is_chain_valid_ignores_difficulty (H : HashInput → String)
    (bs : List Block) (d d' : Nat)
    (hinv : chainInvariant H { chain := bs, difficulty := d } = true) :
    is_chain_valid H { chain := bs, difficulty := d } =
      is_chain_valid H { chain := bs, difficulty := d' } ∧
    is_chain_valid H { chain := bs, difficulty := d } = true ∧
    is_chain_valid H { chain := bs, difficulty := d' } = true := by
  have h1 : is_chain_valid H { chain := bs, difficulty := d } =
      is_chain_valid H { chain := bs, difficulty := d' } := rfl
  have h2 := valid_of_invariant H { chain := bs, difficulty := d } hinv
  exact ⟨h1, h2, h1 ▸ h2⟩

/-- Witness for C5: a linked, intact two-block Hmock chain none of whose
hashes starts with even one zero validates under difficulties 4 and 7. -/
theorem is_chain_valid_ignores_difficulty_witness :
    hashOk 4 gM.hash = false ∧ hashOk 4 b1M.hash = false ∧
    (is_chain_valid Hmock { chain := [gM, b1M], difficulty := 4 } =
       is_chain_valid Hmock { chain := [gM, b1M], difficulty := 7 } ∧
     is_chain_valid Hmock { chain := [gM, b1M], difficulty := 4 } = true ∧
     is_chain_valid Hmock { chain := [gM, b1M], difficulty := 7 } = true) :=
  ⟨by decide, by decide,
   is_chain_valid_ignores_difficulty Hmock [gM, b1M] 4 7 (by decide)⟩

/-- C6 (amended): the constructor takes no difficulty argument: it always
sets the chain's difficulty to 4, and the constructed chain contains exactly
one block, the genesis block. -/
theorem construction_fixed_difficulty (H : HashInput → String) (ts : Nat) :
    (Blockchain.init H ts).difficulty = 4 ∧
    (Blockchain.init H ts).chain = [create_genesis_block H ts] ∧
    (Blockchain.init H ts).chain.length = 1 :=
  ⟨rfl, rfl, rfl⟩

/-- Counterexample for C6 as stated: the spec-modelled new_chain at
difficulty 2 builds the same genesis chain as the code constructor but with
difficulty 2, while the code constructor always yields difficulty 4, so
construction does not take and honor a difficulty argument. -/
theorem new_chain_difficulty_cex :
    (new_chain Hmock 2 0).difficulty = 2 ∧
    (Blockchain.init Hmock 0).difficulty = 4 ∧
    (new_chain Hmock 2 0).chain = (Blockchain.init Hmock 0).chain ∧
    (new_chain Hmock 2 0).difficulty ≠ (Blockchain.init Hmock 0).difficulty := by
  decide

/-- C3 (amended): on a valid chain, overwriting a non-genesis block's
payload with one whose recomputed digest differs (as collision-resistance of
the digest guarantees for a different payload) makes is_chain_valid false;
and after recomputing that block's stored hash the chain is still invalid
provided the block has a successor — for the last block, recomputing the
hash revalidates the chain, as the counterexample shows. -/
theorem tamper_detection (H : HashInput → String) (c : Blockchain) (i : Nat)
    (p : List String) (hvalid : is_chain_valid H c = true) (h1 : 1 ≤ i)
    (hi : i < c.chain.length)
    (hcoll : calculate_hash H ({ c.chain.getD i default with transactions := p }) ≠
      calculate_hash H (c.chain.getD i default)) :
    is_chain_valid H (tamperPayload c i p) = false ∧
    (i + 1 < c.chain.length →
      is_chain_valid H (rehashBlock H (tamperPayload c i p) i) = false) := by
  have hseal_bi : (c.chain.getD i default).hash =
      calculate_hash H (c.chain.getD i default) := by
    have hv := (is_chain_valid_iff H c).mp hvalid (i - 1) (by omega)
    rw [show i - 1 + 1 = i from by omega] at hv
    simp only [checkPair, Bool.and_eq_true, beq_iff_eq] at hv
    exact hv.2
  have hgdi : (tamperPayload c i p).chain.getD i default =
      { c.chain.getD i default with transactions := p } := by
    show (c.chain.set i ({ c.chain.getD i default with transactions := p })).getD
        i default = _
    exact getD_set_self c.chain i hi _
  constructor
  · apply Bool.eq_false_iff.mpr
    intro htrue
    have hlen1 : i - 1 + 1 < (tamperPayload c i p).chain.length := by
      simp only [tamperPayload, List.length_set]
      omega
    have h2 := (is_chain_valid_iff H (tamperPayload c i p)).mp htrue (i - 1) hlen1
    rw [show i - 1 + 1 = i from by omega] at h2
    rw [hgdi] at h2
    simp only [checkPair, Bool.and_eq_true, beq_iff_eq] at h2
    apply hcoll
    rw [← h2.2]
    exact hseal_bi
  · intro hnext
    apply Bool.eq_false_iff.mpr
    intro htrue
    have hch2 : (rehashBlock H (tamperPayload c i p) i).chain =
        (tamperPayload c i p).chain.set i
          ({ { c.chain.getD i default with transactions := p } with
              hash := calculate_hash H
                ({ c.chain.getD i default with transactions := p }) }) := by
      show (tamperPayload c i p).chain.set i _ = _
      rw [hgdi]
    have hlen2 : i + 1 < (rehashBlock H (tamperPayload c i p) i).chain.length := by
      rw [hch2]
      simp only [tamperPayload, List.length_set]
      omega
    have h2 := (is_chain_valid_iff H (rehashBlock H (tamperPayload c i p) i)).mp
      htrue i hlen2
    have hgd2 : (rehashBlock H (tamperPayload c i p) i).chain.getD i default =
        { { c.chain.getD i default with transactions := p } with
            hash := calculate_hash H
              ({ c.chain.getD i default with transactions := p }) } := by
      rw [hch2]
      exact getD_set_self _ i (by simp only [tamperPayload, List.length_set]; omega) _
    have hgd3 : (rehashBlock H (tamperPayload c i p) i).chain.getD (i + 1) default =
        c.chain.getD (i + 1) default := by
      rw [hch2]
      rw [getD_set_ne _ i (i + 1) (by omega) _]
      show (c.chain.set i ({ c.chain.getD i default with transactions := p })).getD
          (i + 1) default = _
      exact getD_set_ne c.chain i (i + 1) (by omega) _
    rw [hgd2, hgd3] at h2
    simp only [checkPair, Bool.and_eq_true, beq_iff_eq] at h2
    have hv2 := (is_chain_valid_iff H c).mp hvalid i hnext
    simp only [checkPair, Bool.and_eq_true, beq_iff_eq] at hv2
    apply hcoll
    have e1 : calculate_hash H ({ c.chain.getD i default with transactions := p }) =
        (c.chain.getD (i + 1) default).previous_hash := h2.1.symm
    have e2 : (c.chain.getD (i + 1) default).previous_hash =
        calculate_hash H (c.chain.getD i default) := by
      rw [hv2.1]
      exact hseal_bi
    exact e1.trans e2

/-- Witness for C3: tampering with the middle block of a valid three-block
Hmock chain is detected, both before and after recomputing its hash. -/
theorem tamper_detection_witness :
    is_chain_valid Hmock chain3M = true ∧
    (is_chain_valid Hmock (tamperPayload chain3M 1 ["X"]) = false ∧
     (1 + 1 < chain3M.chain.length →
       is_chain_valid Hmock (rehashBlock Hmock (tamperPayload chain3M 1 ["X"]) 1) = false)) :=
  ⟨by decide,
   tamper_detection Hmock chain3M 1 ["X"] (by decide) (by decide) (by decide) (by decide)⟩

/-- Counterexample for C3 as stated: on a valid two-block chain, tampering
with the last block's payload and then recomputing its stored hash makes
is_chain_valid true again — there is no successor whose previous_hash could
expose the change — refuting the claim's second part for the last block. -/
theorem tamper_detection_cex :
    is_chain_valid Hmock chain2M = true ∧
    2 ≤ chain2M.chain.length ∧
    ((tamperPayload chain2M 1 ["tampered"]).chain.getD 1 default).transactions ≠
      (chain2M.chain.getD 1 default).transactions ∧
    is_chain_valid Hmock (rehashBlock Hmock (tamperPayload chain2M 1 ["tampered"]) 1) = true := by
  decide
